import Mathlib

/-!
Verification of the support/resistance zone engine
(src/indicators/support_resistance.py, class SupportResistanceAnalyzer).

Prices, volumes and timestamps are embedded as rationals; Python floats are
treated as exact arithmetic.  The only transcendental operation in the source,
the base-1.5 logarithm in the explosive-volume bonus, is embedded over the
reals.  Python exceptions are modelled explicitly: the one public operation
whose body can raise (create_pivot_zones, via division by a zero
current_price or a zero zone middle) is split into an Except-valued core and
a wrapper that catches the error and returns the empty result, exactly as the
try/except in the source does.
-/

namespace SupportResistance

/-- One row of the OHLCV DataFrame.  The timestamp is embedded as a rational. -/
structure Row where
  high : ℚ
  low : ℚ
  close : ℚ
  volume : ℚ
  ts : ℚ
deriving DecidableEq

def defaultRow : Row := ⟨0, 0, 0, 0, 0⟩

/-- A pivot record as built by find_pivots (and a touch record as built by
find_touching_levels, which has exactly the same fields). -/
structure Pivot where
  index : ℕ
  price : ℚ
  ts : ℚ
  volume : ℚ
deriving DecidableEq

/-- df['high'].values[i] -/
def highAt (df : List Row) (i : ℕ) : ℚ := (df.getD i defaultRow).high

/-- df['low'].values[i] -/
def lowAt (df : List Row) (i : ℕ) : ℚ := (df.getD i defaultRow).low

/-- The pivot-high test of find_pivots at index i: the loop over the left
window [i-left_bars, i-1] and the right window [i+1, i+right_bars] clears
is_pivot_high as soon as some high[j] >= high[i]. -/
def is_pivot_high (df : List Row) (left_bars right_bars i : ℕ) : Bool :=
  ((List.range' (i - left_bars) left_bars).all fun j => highAt df j < highAt df i) &&
  ((List.range' (i + 1) right_bars).all fun j => highAt df j < highAt df i)

/-- The pivot-low test of find_pivots at index i (symmetric, on low, with <=). -/
def is_pivot_low (df : List Row) (left_bars right_bars i : ℕ) : Bool :=
  ((List.range' (i - left_bars) left_bars).all fun j => lowAt df i < lowAt df j) &&
  ((List.range' (i + 1) right_bars).all fun j => lowAt df i < lowAt df j)

def mk_pivot_high (df : List Row) (i : ℕ) : Pivot :=
  ⟨i, highAt df i, (df.getD i defaultRow).ts, (df.getD i defaultRow).volume⟩

def mk_pivot_low (df : List Row) (i : ℕ) : Pivot :=
  ⟨i, lowAt df i, (df.getD i defaultRow).ts, (df.getD i defaultRow).volume⟩

/-- The dictionary returned by find_pivots. -/
structure Pivots where
  pivot_highs : List Pivot
  pivot_lows : List Pivot
deriving DecidableEq

/-- find_pivots: if the frame is empty or shorter than left+right+1 bars it
returns two empty lists; otherwise it scans i over range(left_bars,
len-right_bars) and records every index passing the strict window test. -/
def find_pivots (df : List Row) (left_bars right_bars : ℕ) : Pivots :=
  if df.length < left_bars + right_bars + 1 then ⟨[], []⟩
  else
    ⟨((List.range' left_bars (df.length - right_bars - left_bars)).filter
        (fun i => is_pivot_high df left_bars right_bars i)).map (mk_pivot_high df),
      ((List.range' left_bars (df.length - right_bars - left_bars)).filter
        (fun i => is_pivot_low df left_bars right_bars i)).map (mk_pivot_low df)⟩

/-- A zone dictionary.  strength, distance_pct and width_pct are keys that
are only added later in the pipeline, hence Option. -/
structure Zone where
  pivots : List Pivot
  upper : ℚ
  lower : ℚ
  middle : ℚ
  total_volume : ℚ
  touch_count : ℕ
  latest_touch : ℚ
  strength : Option ℚ
  distance_pct : Option ℚ
  width_pct : Option ℚ
deriving DecidableEq

/-- The fresh one-touch zone built from a single pivot (both in
_group_pivots_into_zones and in _find_touching_levels). -/
def single_pivot_zone (p : Pivot) : Zone :=
  ⟨[p], p.price, p.price, p.price, p.volume, 1, p.ts, none, none, none⟩

/-- Merging one more pivot into the open zone: bounds widen, the middle is
recomputed as the midpoint of the updated bounds, volume and touch count
accumulate, latest_touch is updated if the new timestamp is more recent. -/
def add_pivot_to_zone (z : Zone) (p : Pivot) : Zone :=
  ⟨z.pivots ++ [p],
    max z.upper p.price,
    min z.lower p.price,
    (max z.upper p.price + min z.lower p.price) / 2,
    z.total_volume + p.volume,
    z.touch_count + 1,
    if z.latest_touch < p.ts then p.ts else z.latest_touch,
    z.strength, z.distance_pct, z.width_pct⟩

/-- The greedy single-pass grouping loop shared verbatim by
_group_pivots_into_zones and _find_touching_levels: a pivot joins the open
zone iff its price is within middle*tolerance_percent/100 of the zone middle,
otherwise the open zone is emitted (when it has at least min_touches touches)
and a new one is started.  The final open zone is emitted under the same
minimum. -/
def group_zone_loop (tolerance_percent : ℚ) (min_touches : ℕ) :
    List Pivot → Zone → List Zone
  | [], cur => if min_touches ≤ cur.touch_count then [cur] else []
  | p :: rest, cur =>
    if |p.price - cur.middle| ≤ cur.middle * tolerance_percent / 100 then
      group_zone_loop tolerance_percent min_touches rest (add_pivot_to_zone cur p)
    else
      (if min_touches ≤ cur.touch_count then [cur] else []) ++
        group_zone_loop tolerance_percent min_touches rest (single_pivot_zone p)

/-- sorted(key=price, reverse=descending); Python sort is stable, as is
insertion sort. -/
def sort_pivots_by_price (descending : Bool) (l : List Pivot) : List Pivot :=
  if descending then List.insertionSort (fun a b => b.price ≤ a.price) l
  else List.insertionSort (fun a b => a.price ≤ b.price) l

/-- _group_pivots_into_zones.  The current_price argument is accepted and
ignored, as in the source. -/
def group_pivots_into_zones (pivots : List Pivot) (current_price : ℚ)
    (tolerance_percent : ℚ) (min_touches : ℕ) (is_resistance : Bool) : List Zone :=
  match sort_pivots_by_price is_resistance pivots with
  | [] => []
  | p :: rest => group_zone_loop tolerance_percent min_touches rest (single_pivot_zone p)

/-- The touch list built by _find_touching_levels: one record per bar from
the chosen price column. -/
def touch_records (df : List Row) (use_highs : Bool) : List Pivot :=
  df.enum.map fun pr => ⟨pr.1, if use_highs then pr.2.high else pr.2.low, pr.2.ts, pr.2.volume⟩

/-- _find_touching_levels: build one touch per bar, sort by price (descending
for highs, ascending for lows) and run the same greedy grouping loop. -/
def find_touching_levels (df : List Row) (use_highs : Bool)
    (tolerance_percent : ℚ) (min_touches : ℕ) : List Zone :=
  match sort_pivots_by_price use_highs (touch_records df use_highs) with
  | [] => []
  | t :: rest => group_zone_loop tolerance_percent min_touches rest (single_pivot_zone t)

/-- _calculate_zone_strength.  The whole body is wrapped in a bare except
returning 0.5: a missing width_pct key (the state in which the pipeline
always calls it) raises KeyError, and a total_volume of exactly -1000000
raises ZeroDivisionError; both are modelled by the 1/2 branches. -/
def calculate_zone_strength (touch_count total_volume : ℚ) (width_pct : Option ℚ) : ℚ :=
  match width_pct with
  | none => 1/2
  | some w =>
    if total_volume + 1000000 = 0 then 1/2
    else
      min (min (touch_count / 5) 1 * (2/5) +
           min (total_volume / (total_volume + 1000000)) 1 * (3/10) +
           max 0 (1 - w / 2) * (3/10)) 1

/-- The in-place merge of an overlapping touching zone into an existing pivot
zone in create_pivot_zones: widen bounds to the union, midpoint middle, max
touch count, summed volume, concatenated provenance; latest_touch unchanged. -/
def merge_zone_bounds (e z : Zone) : Zone :=
  ⟨e.pivots ++ z.pivots,
    max e.upper z.upper,
    min e.lower z.lower,
    (max e.upper z.upper + min e.lower z.lower) / 2,
    e.total_volume + z.total_volume,
    max e.touch_count z.touch_count,
    e.latest_touch,
    e.strength, e.distance_pct, e.width_pct⟩

/-- One step of the duplicate-avoidance loop of create_pivot_zones: scan the
existing zones for the first one whose range intersects the touching zone;
on overlap merge only if the touching zone has at least as many touches
(else drop it), and stop scanning; with no overlap append the touching zone. -/
def absorb_touching_zone : List Zone → Zone → List Zone
  | [], z => [z]
  | e :: rest, z =>
    if z.lower ≤ e.upper ∧ e.lower ≤ z.upper then
      (if e.touch_count ≤ z.touch_count then merge_zone_bounds e z else e) :: rest
    else
      e :: absorb_touching_zone rest z

/-- The result dictionary of create_pivot_zones. -/
structure ZonesResult where
  resistance_zones : List Zone
  support_zones : List Zone
  all_zones : List Zone
deriving DecidableEq

def empty_zones_result : ZonesResult := ⟨[], [], []⟩

/-- Steps 1-2 of create_pivot_zones: group the pivot highs and lows, then,
when touching levels are enabled and a non-empty frame was given, absorb the
touching zones of each side (detected with min touches max(min_touches+1, 3))
into that side. -/
def pivot_side_zones (pivots : Pivots) (current_price : ℚ) (df : Option (List Row))
    (tolerance_percent : ℚ) (min_touches : ℕ) (include_touching_levels : Bool) :
    List Zone × List Zone :=
  let resistance0 :=
    group_pivots_into_zones pivots.pivot_highs current_price tolerance_percent min_touches true
  let support0 :=
    group_pivots_into_zones pivots.pivot_lows current_price tolerance_percent min_touches false
  let useTouch := include_touching_levels && df.isSome && !(df.getD []).isEmpty
  if useTouch then
    (List.foldl absorb_touching_zone resistance0
        (find_touching_levels (df.getD []) true tolerance_percent (max (min_touches + 1) 3)),
      List.foldl absorb_touching_zone support0
        (find_touching_levels (df.getD []) false tolerance_percent (max (min_touches + 1) 3)))
  else (resistance0, support0)

/-- Step 3 of create_pivot_zones applied to one zone: set strength (computed
while the width_pct key is still absent), distance_pct and width_pct. -/
def enrich_zone (current_price : ℚ) (z : Zone) : Zone :=
  ⟨z.pivots, z.upper, z.lower, z.middle, z.total_volume, z.touch_count, z.latest_touch,
    some (calculate_zone_strength (z.touch_count : ℚ) z.total_volume z.width_pct),
    some ((z.middle - current_price) / current_price * 100),
    some ((z.upper - z.lower) / z.middle * 100)⟩

/-- The sort key of step 4; after enrichment the distance_pct key is always
present. -/
def distance_key (z : Zone) : ℚ := z.distance_pct.getD 0

/-- Steps 3-4 of create_pivot_zones: enrich every zone, filter the two sides
against the current price, sort by distance (ascending for resistance,
descending for support) and keep the top five of each side; all_zones is the
full enriched combined list. -/
def enrich_and_select (current_price : ℚ) (resistance1 support1 : List Zone) : ZonesResult :=
  let resistance2 := resistance1.map (enrich_zone current_price)
  let support2 := support1.map (enrich_zone current_price)
  let resistance3 := resistance2.filter fun z => current_price < z.middle
  let support3 := support2.filter fun z => z.middle < current_price
  ⟨(List.insertionSort (fun a b => distance_key a ≤ distance_key b) resistance3).take 5,
    (List.insertionSort (fun a b => distance_key b ≤ distance_key a) support3).take 5,
    resistance2 ++ support2⟩

/-- The exception condition of the step-3 loop: computing the first
distance_pct raises ZeroDivisionError when current_price is zero, and a
zone's width_pct raises when its middle is zero; nothing raises when the
combined list is empty. -/
def zones_error_condition (current_price : ℚ) (resistance1 support1 : List Zone) : Prop :=
  resistance1 ++ support1 ≠ [] ∧
    (current_price = 0 ∨ ∃ z ∈ resistance1 ++ support1, z.middle = 0)

instance (current_price : ℚ) (resistance1 support1 : List Zone) :
    Decidable (zones_error_condition current_price resistance1 support1) := by
  unfold zones_error_condition; infer_instance

/-- The body of create_pivot_zones before its try/except. -/
def create_pivot_zones_exc (pivots : Pivots) (current_price : ℚ) (df : Option (List Row))
    (tolerance_percent : ℚ) (min_touches : ℕ) (include_touching_levels : Bool) :
    Except Unit ZonesResult :=
  let sides := pivot_side_zones pivots current_price df tolerance_percent min_touches
    include_touching_levels
  if zones_error_condition current_price sides.1 sides.2 then Except.error ()
  else Except.ok (enrich_and_select current_price sides.1 sides.2)

/-- create_pivot_zones: any exception in the body is caught and converted to
the empty three-list result. -/
def create_pivot_zones (pivots : Pivots) (current_price : ℚ) (df : Option (List Row))
    (tolerance_percent : ℚ) (min_touches : ℕ) (include_touching_levels : Bool) : ZonesResult :=
  match create_pivot_zones_exc pivots current_price df tolerance_percent min_touches
      include_touching_levels with
  | Except.ok r => r
  | Except.error _ => empty_zones_result

/-- The avgs local of _calculate_volume_strength: the positive averages. -/
def volume_avgs (volume_avg_20 volume_avg_50 volume_avg_200 : ℚ) : List ℚ :=
  [volume_avg_20, volume_avg_50, volume_avg_200].filter fun v => 0 < v

/-- The ratios local of _calculate_volume_strength. -/
def volume_ratios (current_volume volume_avg_20 volume_avg_50 volume_avg_200 : ℚ) : List ℚ :=
  (volume_avgs volume_avg_20 volume_avg_50 volume_avg_200).map fun v => current_volume / v

/-- The base_score local of _calculate_volume_strength: per-average ratios
clipped to 2, averaged, rescaled by 2, clipped to 1. -/
def volume_base_score (current_volume volume_avg_20 volume_avg_50 volume_avg_200 : ℚ) : ℚ :=
  min (((volume_ratios current_volume volume_avg_20 volume_avg_50 volume_avg_200).map
      fun r => min r 2).sum /
    ((volume_ratios current_volume volume_avg_20 volume_avg_50 volume_avg_200).length : ℚ) / 2) 1

/-- The bonus ratio of _calculate_volume_strength: current_volume / max(avgs). -/
def volume_bonus_ratio (current_volume volume_avg_20 volume_avg_50 volume_avg_200 : ℚ) : ℚ :=
  current_volume / (volume_avgs volume_avg_20 volume_avg_50 volume_avg_200).foldl max 0

/-- _calculate_volume_strength.  All arithmetic except the logarithm is
rational; the base-1.5 logarithm of the explosive-volume bonus lives in ℝ.
The bonus ratio is current_volume / max(avgs), as in the source. -/
noncomputable def calculate_volume_strength
    (current_volume volume_avg_20 volume_avg_50 volume_avg_200 : ℚ) : ℝ :=
  if volume_avgs volume_avg_20 volume_avg_50 volume_avg_200 = [] ∨ current_volume ≤ 0 then 0
  else
    let rr := volume_bonus_ratio current_volume volume_avg_20 volume_avg_50 volume_avg_200
    let bonus : ℝ := if 1 < rr then min (0.1 * Real.logb 1.5 (rr : ℝ)) 0.2 else 0
    min (((volume_base_score current_volume volume_avg_20 volume_avg_50 volume_avg_200 : ℚ) : ℝ) +
      bonus) 1

/-- Modelled from the spec: the variant of _calculate_volume_strength that the
specification describes, in which the explosive-volume bonus is driven by the
maximum of the per-average ratios rather than by current/max(avgs).  Declared
only to be compared with the function translated from the source. -/
noncomputable def volume_strength_spec_variant
    (current_volume volume_avg_20 volume_avg_50 volume_avg_200 : ℚ) : ℝ :=
  if volume_avgs volume_avg_20 volume_avg_50 volume_avg_200 = [] ∨ current_volume ≤ 0 then 0
  else
    let max_rr :=
      (volume_ratios current_volume volume_avg_20 volume_avg_50 volume_avg_200).foldl max 0
    let bonus : ℝ := if 1 < max_rr then min (0.1 * Real.logb 1.5 (max_rr : ℝ)) 0.2 else 0
    min (((volume_base_score current_volume volume_avg_20 volume_avg_50 volume_avg_200 : ℚ) : ℝ) +
      bonus) 1

/-- The running score of _calculate_momentum_strength before the final
min(score, 1). -/
def momentum_raw (rsi macd macd_sig : ℚ) (is_resistance_break : Bool) : ℚ :=
  if is_resistance_break then
    (if 50 ≤ rsi ∧ rsi ≤ 70 then 3/10 else if 70 < rsi then 1/10 else 0) +
      (if macd_sig < macd then 3/10 else 0) +
      (if 0 < macd - macd_sig then 2/10 else 0)
  else
    (if 30 ≤ rsi ∧ rsi ≤ 50 then 3/10 else if rsi < 30 then 1/10 else 0) +
      (if macd < macd_sig then 3/10 else 0) +
      (if macd - macd_sig < 0 then 2/10 else 0)

/-- _calculate_momentum_strength. -/
def calculate_momentum_strength (rsi macd macd_sig : ℚ) (is_resistance_break : Bool) : ℚ :=
  min (momentum_raw rsi macd macd_sig is_resistance_break) 1

/-- Python l[-n:]: the last n elements (the whole list when it is shorter). -/
def lastN (n : ℕ) (l : List ℚ) : List ℚ := l.drop (l.length - n)

/-- _calculate_breakout_pattern.  The clean-break generator filters each
element of the last-three slice by the length test, so the disjunct inside
the any mirrors the Python generator expression exactly. -/
def calculate_breakout_pattern (current_price zone_middle zone_upper zone_lower : ℚ)
    (recent_highs recent_lows : List ℚ) : ℚ :=
  min
    (if zone_middle < current_price then
      (if zone_upper < current_price then 1/2 else 0) +
        (if 2 ≤ (recent_highs.filter fun p => zone_upper < p).length then 3/10 else 0) +
        (if !((lastN 3 recent_lows).any fun p =>
            3 ≤ recent_lows.length ∧ p < zone_lower) then 2/10 else 0)
    else if current_price < zone_middle then
      (if current_price < zone_lower then 1/2 else 0) +
        (if 2 ≤ (recent_lows.filter fun p => p < zone_lower).length then 3/10 else 0) +
        (if !((lastN 3 recent_highs).any fun p =>
            3 ≤ recent_highs.length ∧ zone_upper < p) then 2/10 else 0)
    else 0) 1

/-- The indicators dictionary as consumed by calculate_breakout_confidence:
only the three keys it reads, each possibly missing. -/
structure Indicators where
  rsi_14 : Option ℚ
  macd : Option ℚ
  macd_sig : Option ℚ
deriving DecidableEq

/-- The result of calculate_breakout_confidence with its breakdown flattened. -/
structure ConfidenceResult where
  confidence_score : ℝ
  volume_strength : ℝ
  zone_strength : ℝ
  momentum_strength : ℝ
  pattern_strength : ℝ
  interpretation : String

/-- _get_confidence_interpretation. -/
noncomputable def get_confidence_interpretation (score : ℝ) : String :=
  if 3/4 ≤ score then "Very High Confidence - Strong breakout signal"
  else if 3/5 ≤ score then "High Confidence - Good breakout potential"
  else if 9/20 ≤ score then "Moderate Confidence - Wait for confirmation"
  else if 3/10 ≤ score then "Low Confidence - Weak signal"
  else "Very Low Confidence - False breakout likely"

/-- Series mean, pandas-style over a non-empty column. -/
def list_mean (l : List ℚ) : ℚ := l.sum / (l.length : ℚ)

/-- calculate_breakout_confidence on a well-typed frame (every column
present), zone and indicator mapping; on such inputs the body's try/except
never fires.  The 200-bar average falls back to the mean of all available
bars below 200 rows (the two fallback branches of the source coincide). -/
noncomputable def calculate_breakout_confidence (zone : Zone) (indicators : Indicators)
    (df : List Row) (is_resistance : Bool) : ConfidenceResult :=
  let vols := df.map Row.volume
  let volume_200 := if 200 ≤ df.length then list_mean (lastN 200 vols) else list_mean vols
  let volume_50 := list_mean (lastN (min 50 df.length) vols)
  let volume_20 := list_mean (lastN (min 20 df.length) vols)
  let current_volume := (df.getLastD defaultRow).volume
  let volume_score := calculate_volume_strength current_volume volume_20 volume_50 volume_200
  let zone_score : ℚ := zone.strength.getD (1/2)
  let rsi := indicators.rsi_14.getD 50
  let macd_v := indicators.macd.getD 0
  let macd_s := indicators.macd_sig.getD 0
  let momentum_score := calculate_momentum_strength rsi macd_v macd_s is_resistance
  let recent_highs := lastN 10 (df.map Row.high)
  let recent_lows := lastN 10 (df.map Row.low)
  let pattern_score := calculate_breakout_pattern (df.getLastD defaultRow).close
    zone.middle zone.upper zone.lower recent_highs recent_lows
  let confidence : ℝ := volume_score * (1/4) + (zone_score : ℝ) * (1/4) +
    (momentum_score : ℝ) * (1/4) + (pattern_score : ℝ) * (1/4)
  ⟨confidence, volume_score, (zone_score : ℝ), (momentum_score : ℝ), (pattern_score : ℝ),
    get_confidence_interpretation confidence⟩

end SupportResistance

namespace SupportResistance

/-- Helper: the raw momentum score never exceeds 4/5. -/
theorem momentum_raw_le (rsi macd macd_sig : ℚ) (b : Bool) :
    momentum_raw rsi macd macd_sig b ≤ 4/5 := by
  unfold momentum_raw
  cases b <;> simp only [Bool.false_eq_true, if_true, if_false] <;> split_ifs <;> norm_num

/-- Helper: the raw momentum score is nonnegative. -/
theorem momentum_raw_nonneg (rsi macd macd_sig : ℚ) (b : Bool) :
    0 ≤ momentum_raw rsi macd macd_sig b := by
  unfold momentum_raw
  cases b <;> simp only [Bool.false_eq_true, if_true, if_false] <;> split_ifs <;> norm_num

/-- C10: the two MACD conditions of the momentum sub-score are equivalent in
each direction, so the +0.3 and +0.2 contributions fire together and amount
to a single contribution of exactly 1/2 (or 0); the whole raw score is at
most 4/5, so the final min with 1 never changes the value. -/
theorem momentum_macd_contributions (rsi macd macd_sig : ℚ) (b : Bool) :
    (momentum_raw rsi macd macd_sig true =
      (if 50 ≤ rsi ∧ rsi ≤ 70 then 3/10 else if 70 < rsi then 1/10 else 0) +
        (if macd_sig < macd then 1/2 else 0)) ∧
    (momentum_raw rsi macd macd_sig false =
      (if 30 ≤ rsi ∧ rsi ≤ 50 then 3/10 else if rsi < 30 then 1/10 else 0) +
        (if macd < macd_sig then 1/2 else 0)) ∧
    momentum_raw rsi macd macd_sig b ≤ 4/5 ∧
    calculate_momentum_strength rsi macd macd_sig b = momentum_raw rsi macd macd_sig b := by
  refine ⟨?_, ?_, momentum_raw_le rsi macd macd_sig b, ?_⟩
  · unfold momentum_raw
    simp only [if_true]
    by_cases h : macd_sig < macd
    · rw [if_pos h, if_pos (show 0 < macd - macd_sig by linarith)]
      split_ifs <;> ring
    · rw [if_neg h, if_neg (show ¬ 0 < macd - macd_sig by intro hc; exact h (by linarith))]
      split_ifs <;> ring
  · unfold momentum_raw
    simp only [Bool.false_eq_true, if_false]
    by_cases h : macd < macd_sig
    · rw [if_pos h, if_pos (show macd - macd_sig < 0 by linarith)]
      split_ifs <;> ring
    · rw [if_neg h, if_neg (show ¬ macd - macd_sig < 0 by intro hc; exact h (by linarith))]
      split_ifs <;> ring
  · unfold calculate_momentum_strength
    exact min_eq_left (le_trans (momentum_raw_le rsi macd macd_sig b) (by norm_num))

/-- C6 counterexample: with the three fields defined but a negative touch
count (-5, total volume 0, width 2%), _calculate_zone_strength returns -2/5,
which is outside [0,1]: the code only clamps from above, so the result is
not clamped to [0,1] as claimed. -/
theorem zone_strength_not_clamped_below :
    calculate_zone_strength (-5) 0 (some 2) = -2/5 ∧
      ¬ (0 ≤ calculate_zone_strength (-5) 0 (some 2)) := by
  constructor <;> norm_num [calculate_zone_strength]

/-- C6 amended: with all three fields defined (and a total volume different
from -1000000, where the division raises and the except yields 1/2), the
strength equals touch_score*0.4 + volume_score*0.3 + width_score*0.3 clamped
from above at 1 only; the result lies in [0,1] whenever touch_count and
total_volume are nonnegative; a missing width_pct field or the zero divisor
yield the neutral 1/2. -/
theorem zone_strength_formula (tc tv w : ℚ) :
    (tv + 1000000 ≠ 0 → calculate_zone_strength tc tv (some w) =
      min (min (tc / 5) 1 * (2/5) + min (tv / (tv + 1000000)) 1 * (3/10) +
        max 0 (1 - w / 2) * (3/10)) 1) ∧
    (0 ≤ tc → 0 ≤ tv →
      0 ≤ calculate_zone_strength tc tv (some w) ∧ calculate_zone_strength tc tv (some w) ≤ 1) ∧
    calculate_zone_strength tc tv none = 1/2 ∧
    (tv + 1000000 = 0 → calculate_zone_strength tc tv (some w) = 1/2) := by
  refine ⟨fun h => by rw [calculate_zone_strength, if_neg h], fun htc htv => ?_, rfl,
    fun h => by rw [calculate_zone_strength, if_pos h]⟩
  have hden : (0:ℚ) < tv + 1000000 := by linarith
  rw [calculate_zone_strength, if_neg (by linarith)]
  constructor
  · apply le_min _ (by norm_num)
    have h1 : (0:ℚ) ≤ min (tc / 5) 1 := le_min (by positivity) (by norm_num)
    have h2 : (0:ℚ) ≤ min (tv / (tv + 1000000)) 1 := le_min (by positivity) (by norm_num)
    have h3 : (0:ℚ) ≤ max 0 (1 - w / 2) := le_max_left 0 _
    nlinarith
  · exact min_le_right _ 1

/-- C6 witness: the amended formula and the bounds, instantiated at
touch_count 1, total_volume 0, width_pct 1. -/
theorem zone_strength_formula_witness :
    calculate_zone_strength 1 0 (some 1) =
      min (min ((1:ℚ) / 5) 1 * (2/5) + min ((0:ℚ) / (0 + 1000000)) 1 * (3/10) +
        max 0 (1 - (1:ℚ) / 2) * (3/10)) 1 ∧
    0 ≤ calculate_zone_strength 1 0 (some 1) ∧ calculate_zone_strength 1 0 (some 1) ≤ 1 := by
  have h := zone_strength_formula 1 0 1
  exact ⟨h.1 (by norm_num), (h.2.1 (by norm_num) (by norm_num)).1,
    (h.2.1 (by norm_num) (by norm_num)).2⟩

end SupportResistance

namespace SupportResistance

/-- C3 counterexample: price 11 above the zone middle 10 (upper 21/2, lower
19/2), no recent highs and only two recent lows, both of which (9) are below
the lower bound.  The claim says the clean-break bonus is silently skipped
with fewer than 3 low values, giving score 1/2 (only the +0.5 upper-bound
break); the code grants the bonus because the length filter empties the
generator and any() of nothing is False, giving 7/10. -/
theorem breakout_pattern_bonus_with_short_lows :
    calculate_breakout_pattern 11 10 (21/2) (19/2) [] [9, 9] = 7/10 ∧
      calculate_breakout_pattern 11 10 (21/2) (19/2) [] [9, 9] ≠ 1/2 := by
  constructor <;> norm_num [calculate_breakout_pattern, lastN]

/-- C3 amended: in the breakout pattern sub-score, when the price is above
the zone middle the +0.2 clean-break bonus is granted iff it is not the case
that at least 3 low values are available and one of the last 3 dips below
the lower bound; in particular with fewer than 3 low values the bonus is
granted vacuously, not skipped.  Mirror for the last-3 highs against the
upper bound when price is below the middle. -/
theorem breakout_pattern_clean_break (c m u l : ℚ) (hs ls : List ℚ) :
    (m < c → calculate_breakout_pattern c m u l hs ls =
      min ((if u < c then 1/2 else 0) +
        (if 2 ≤ (hs.filter fun p => u < p).length then 3/10 else 0) +
        (if 3 ≤ ls.length ∧ ∃ p ∈ lastN 3 ls, p < l then 0 else 1/5)) 1) ∧
    (c < m → calculate_breakout_pattern c m u l hs ls =
      min ((if c < l then 1/2 else 0) +
        (if 2 ≤ (ls.filter fun p => p < l).length then 3/10 else 0) +
        (if 3 ≤ hs.length ∧ ∃ p ∈ lastN 3 hs, u < p then 0 else 1/5)) 1) := by
  constructor
  · intro h
    rw [calculate_breakout_pattern, if_pos h]
    by_cases hb : 3 ≤ ls.length ∧ ∃ p ∈ lastN 3 ls, p < l
    · rw [if_pos hb]
      have : ((lastN 3 ls).any fun p => 3 ≤ ls.length ∧ p < l) = true := by
        obtain ⟨hlen, p, hp, hpl⟩ := hb
        simp only [List.any_eq_true, decide_eq_true_eq]
        exact ⟨p, hp, hlen, hpl⟩
      rw [this]
      norm_num
    · rw [if_neg hb]
      have : ((lastN 3 ls).any fun p => 3 ≤ ls.length ∧ p < l) = false := by
        simp only [List.any_eq_false, decide_eq_true_eq]
        intro p hp hc
        exact hb ⟨hc.1, p, hp, hc.2⟩
      rw [this]
      norm_num
  · intro h
    rw [calculate_breakout_pattern, if_neg (by linarith), if_pos h]
    by_cases hb : 3 ≤ hs.length ∧ ∃ p ∈ lastN 3 hs, u < p
    · rw [if_pos hb]
      have : ((lastN 3 hs).any fun p => 3 ≤ hs.length ∧ u < p) = true := by
        obtain ⟨hlen, p, hp, hpl⟩ := hb
        simp only [List.any_eq_true, decide_eq_true_eq]
        exact ⟨p, hp, hlen, hpl⟩
      rw [this]
      norm_num
    · rw [if_neg hb]
      have : ((lastN 3 hs).any fun p => 3 ≤ hs.length ∧ u < p) = false := by
        simp only [List.any_eq_false, decide_eq_true_eq]
        intro p hp hc
        exact hb ⟨hc.1, p, hp, hc.2⟩
      rw [this]
      norm_num

/-- C3 witness: the amended characterization instantiated at a price above
the zone middle with two recent lows. -/
theorem breakout_pattern_clean_break_witness :
    calculate_breakout_pattern 11 10 (21/2) (19/2) [] [9, 9] =
      min ((if (21/2 : ℚ) < 11 then 1/2 else 0) +
        (if 2 ≤ (([] : List ℚ).filter fun p => (21/2 : ℚ) < p).length then 3/10 else 0) +
        (if 3 ≤ [(9:ℚ), 9].length ∧ ∃ p ∈ lastN 3 [(9:ℚ), 9], p < 19/2 then 0 else 1/5)) 1 :=
  (breakout_pattern_clean_break 11 10 (21/2) (19/2) [] [9, 9]).1 (by norm_num)

end SupportResistance

namespace SupportResistance

/-- Helper: the initial accumulator is below a left max-fold. -/
theorem init_le_foldl_max (l : List ℚ) (a : ℚ) : a ≤ l.foldl max a := by
  induction l generalizing a with
  | nil => simp
  | cons x xs ih => exact le_trans (le_max_left a x) (ih (max a x))

/-- Helper: every member is below a left max-fold. -/
theorem mem_le_foldl_max (l : List ℚ) (a x : ℚ) (hx : x ∈ l) : x ≤ l.foldl max a := by
  induction l generalizing a with
  | nil => cases hx
  | cons y ys ih =>
    rcases List.mem_cons.mp hx with h | h
    · subst h
      exact le_trans (le_max_right a x) (init_le_foldl_max ys (max a x))
    · exact ih (max a y) h

/-- C4 counterexample: current volume 3 with positive averages 1 and 2 (the
200-bar average 0 is filtered out).  The per-average ratios are 3 and 3/2,
so the claim's max_ratio is 3 and its bonus saturates at 0.2, giving a final
score of 1; the code instead divides by the largest average, ratio 3/2,
bonus 0.1 (log base 1.5 of 3/2 is 1), final score 39/40. -/
theorem volume_strength_bonus_not_max_ratio :
    calculate_volume_strength 3 1 2 0 = 39/40 ∧
      volume_strength_spec_variant 3 1 2 0 = 1 ∧ ((39:ℝ)/40) ≠ 1 := by
  have hlog1 : Real.logb 1.5 ((3:ℝ)/2) = 1 := by
    rw [show ((3:ℝ)/2) = (1.5:ℝ) by norm_num]
    exact Real.logb_self_eq_one (by norm_num)
  have hlog3 : (2:ℝ) ≤ Real.logb 1.5 3 := by
    rw [Real.le_logb_iff_rpow_le (by norm_num) (by norm_num)]
    rw [show ((2:ℝ) = ((2:ℕ):ℝ)) by norm_num, Real.rpow_natCast]
    norm_num
  have havgs : volume_avgs 1 2 0 = [1, 2] := by norm_num [volume_avgs, List.filter]
  have hbase : volume_base_score 3 1 2 0 = 7/8 := by
    norm_num [volume_base_score, volume_ratios, havgs]
  refine ⟨?_, ?_, by norm_num⟩
  · rw [calculate_volume_strength]
    norm_num [havgs, hbase, volume_bonus_ratio, List.foldl, hlog1]
    all_goals simp
  · rw [volume_strength_spec_variant]
    norm_num [havgs, hbase, volume_ratios, List.foldl]
    rw [min_eq_right (by nlinarith [hlog3] : (1/5 : ℝ) ≤ 1/10 * Real.logb (3/2) 3)]
    norm_num
    all_goals simp

end SupportResistance

namespace SupportResistance

/-- C4 amended: the explosive-volume bonus of the volume sub-score is driven
by the ratio current/max(avgs) — the minimum, not the maximum, of the
per-average ratios: bonus = min(0.1 * log base 1.5 of that ratio, 0.2) when
it exceeds 1 and 0 otherwise, and the final score is min(base + bonus, 1);
zero or negative current volume, or no positive average, yields 0. -/
theorem volume_strength_formula (cv a20 a50 a200 : ℚ) :
    (volume_avgs a20 a50 a200 = [] ∨ cv ≤ 0 →
      calculate_volume_strength cv a20 a50 a200 = 0) ∧
    (volume_avgs a20 a50 a200 ≠ [] → 0 < cv →
      (∀ v ∈ volume_avgs a20 a50 a200, volume_bonus_ratio cv a20 a50 a200 ≤ cv / v) ∧
      calculate_volume_strength cv a20 a50 a200 =
        min (((volume_base_score cv a20 a50 a200 : ℚ) : ℝ) +
          (if 1 < volume_bonus_ratio cv a20 a50 a200 then
            min (0.1 * Real.logb 1.5 ((volume_bonus_ratio cv a20 a50 a200 : ℚ) : ℝ)) 0.2
          else 0)) 1) := by
  constructor
  · intro h
    rw [calculate_volume_strength, if_pos h]
  · intro h1 h2
    constructor
    · intro v hv
      have hv0 : 0 < v := by
        have h' := hv
        rw [volume_avgs] at h'
        exact of_decide_eq_true (List.mem_filter.mp h').2
      have hvle : v ≤ (volume_avgs a20 a50 a200).foldl max 0 :=
        mem_le_foldl_max _ 0 v hv
      have hf0 : 0 < (volume_avgs a20 a50 a200).foldl max 0 :=
        lt_of_lt_of_le hv0 hvle
      rw [volume_bonus_ratio, div_le_div_iff hf0 hv0]
      exact mul_le_mul_of_nonneg_left hvle (le_of_lt h2)
    · rw [calculate_volume_strength, if_neg (by push_neg; exact ⟨h1, h2⟩)]

/-- C4 amended witness: the zero branch and the ratio-minimality part of the
positive branch, instantiated at current volume 3 with averages 1, 2, 0. -/
theorem volume_strength_formula_witness :
    calculate_volume_strength 0 1 2 0 = 0 ∧
      (∀ v ∈ volume_avgs 1 2 0, volume_bonus_ratio 3 1 2 0 ≤ 3 / v) := by
  have havgs : volume_avgs (1:ℚ) 2 0 = [1, 2] := by norm_num [volume_avgs, List.filter]
  constructor
  · exact (volume_strength_formula 0 1 2 0).1 (Or.inr (by norm_num))
  · exact ((volume_strength_formula 3 1 2 0).2 (by rw [havgs]; simp) (by norm_num)).1

end SupportResistance

namespace SupportResistance

/-- Three pivot highs at 10.1, 10.09 and 10.0 (already in descending price
order): a skewed cluster that all merges into one zone. -/
def pivotsC2 : List Pivot := [⟨0, 101/10, 0, 0⟩, ⟨1, 1009/100, 0, 0⟩, ⟨2, 10, 0, 0⟩]

/-- The single zone the grouping emits for pivotsC2. -/
def zoneC2 : Zone := ⟨pivotsC2, 101/10, 10, 201/20, 0, 3, 0, none, none, none⟩

/-- Evaluation of the grouping on the three skewed pivots. -/
theorem group_pivots_example_eval :
    group_pivots_into_zones pivotsC2 5 (3/2) 2 true = [zoneC2] := by
  norm_num [group_pivots_into_zones, sort_pivots_by_price, List.insertionSort,
    List.orderedInsert, group_zone_loop, single_pivot_zone, add_pivot_to_zone,
    pivotsC2, zoneC2, abs]

/-- C2 counterexample: grouping the pivot highs 10.1, 10.09, 10.0 (tolerance
1.5%, min touches 2) emits one zone whose middle is the midpoint of bounds
(10.1+10.0)/2 = 201/20 = 10.05, not the count-weighted running average of the
merged prices (10.1+10.09+10.0)/3 = 10.0633...; so the middle is recomputed
as midpoint-of-bounds, contradicting the claim. -/
theorem group_pivots_middle_not_weighted :
    (group_pivots_into_zones pivotsC2 5 (3/2) 2 true).map Zone.middle = [201/20] ∧
      (201/20 : ℚ) ≠ (101/10 + 1009/100 + 10) / 3 := by
  refine ⟨?_, by norm_num⟩
  rw [group_pivots_example_eval]
  rfl

/-- The middle key equals the midpoint of the bounds. -/
def mid_is_midpoint (z : Zone) : Prop := z.middle = (z.upper + z.lower) / 2

theorem mid_is_midpoint_single (p : Pivot) : mid_is_midpoint (single_pivot_zone p) := by
  unfold mid_is_midpoint single_pivot_zone
  ring

theorem mid_is_midpoint_add (z : Zone) (p : Pivot) :
    mid_is_midpoint (add_pivot_to_zone z p) := rfl

theorem mid_is_midpoint_loop (tol : ℚ) (mt : ℕ) :
    ∀ (rest : List Pivot) (cur : Zone), mid_is_midpoint cur →
      ∀ z ∈ group_zone_loop tol mt rest cur, mid_is_midpoint z := by
  intro rest
  induction rest with
  | nil =>
    intro cur hcur z hz
    rw [group_zone_loop] at hz
    split at hz
    · rw [List.mem_singleton.mp hz]; exact hcur
    · cases hz
  | cons p ps ih =>
    intro cur hcur z hz
    rw [group_zone_loop] at hz
    split at hz
    · exact ih _ (mid_is_midpoint_add cur p) z hz
    · rcases List.mem_append.mp hz with h | h
      · split at h
        · rw [List.mem_singleton.mp h]; exact hcur
        · cases h
      · exact ih _ (mid_is_midpoint_single p) z h

/-- C2 amended: whenever an incoming pivot merges into the current zone, the
zone's middle — the tolerance reference for the following merge decisions —
is recomputed as the midpoint of the zone's bounds (upper+lower)/2, exactly
as in the touching-level detector, not as the count-weighted running average
of the merged pivot prices; consequently every zone the grouping emits has
middle = (upper+lower)/2. -/
theorem group_pivots_middle_is_midpoint (pivots : List Pivot) (cp tol : ℚ) (mt : ℕ)
    (b : Bool) : ∀ z ∈ group_pivots_into_zones pivots cp tol mt b, mid_is_midpoint z := by
  intro z hz
  rw [group_pivots_into_zones] at hz
  rcases hsort : sort_pivots_by_price b pivots with _ | ⟨p, rest⟩ <;> rw [hsort] at hz
  · cases hz
  · exact mid_is_midpoint_loop tol mt rest (single_pivot_zone p)
      (mid_is_midpoint_single p) z hz

/-- C2 amended witness: in the zone emitted for the three skewed pivots the
middle is the midpoint of the bounds. -/
theorem group_pivots_middle_is_midpoint_witness : mid_is_midpoint zoneC2 :=
  group_pivots_middle_is_midpoint pivotsC2 5 (3/2) 2 true zoneC2
    (group_pivots_example_eval ▸ List.mem_singleton.mpr rfl)

end SupportResistance

namespace SupportResistance

/-- Helper: the Boolean pivot-high window test, as a window property, for a
candidate index at least left_bars. -/
theorem is_pivot_high_iff (df : List Row) (lb rb i : ℕ) (hi : lb ≤ i) :
    is_pivot_high df lb rb i = true ↔
      (∀ j, i - lb ≤ j → j < i → highAt df j < highAt df i) ∧
      (∀ j, i + 1 ≤ j → j ≤ i + rb → highAt df j < highAt df i) := by
  unfold is_pivot_high
  rw [Bool.and_eq_true, List.all_eq_true, List.all_eq_true]
  constructor
  · rintro ⟨h1, h2⟩
    refine ⟨fun j hj1 hj2 => ?_, fun j hj1 hj2 => ?_⟩
    · exact of_decide_eq_true (h1 j (List.mem_range'_1.mpr ⟨hj1, by omega⟩))
    · exact of_decide_eq_true (h2 j (List.mem_range'_1.mpr ⟨hj1, by omega⟩))
  · rintro ⟨h1, h2⟩
    refine ⟨fun j hj => ?_, fun j hj => ?_⟩
    · have := List.mem_range'_1.mp hj
      exact decide_eq_true (h1 j this.1 (by omega))
    · have := List.mem_range'_1.mp hj
      exact decide_eq_true (h2 j this.1 (by omega))

/-- Helper: the Boolean pivot-low window test, as a window property. -/
theorem is_pivot_low_iff (df : List Row) (lb rb i : ℕ) (hi : lb ≤ i) :
    is_pivot_low df lb rb i = true ↔
      (∀ j, i - lb ≤ j → j < i → lowAt df i < lowAt df j) ∧
      (∀ j, i + 1 ≤ j → j ≤ i + rb → lowAt df i < lowAt df j) := by
  unfold is_pivot_low
  rw [Bool.and_eq_true, List.all_eq_true, List.all_eq_true]
  constructor
  · rintro ⟨h1, h2⟩
    refine ⟨fun j hj1 hj2 => ?_, fun j hj1 hj2 => ?_⟩
    · exact of_decide_eq_true (h1 j (List.mem_range'_1.mpr ⟨hj1, by omega⟩))
    · exact of_decide_eq_true (h2 j (List.mem_range'_1.mpr ⟨hj1, by omega⟩))
  · rintro ⟨h1, h2⟩
    refine ⟨fun j hj => ?_, fun j hj => ?_⟩
    · have := List.mem_range'_1.mp hj
      exact decide_eq_true (h1 j this.1 (by omega))
    · have := List.mem_range'_1.mp hj
      exact decide_eq_true (h2 j this.1 (by omega))

/-- C1: an index is reported as a pivot high iff the series is long enough
(at least left+right+1 bars), the index lies in [left_bars, len-right_bars-1]
and its high strictly dominates every high of the left window
[i-left_bars, i-1] and the right window [i+1, i+right_bars]; symmetrically
for pivot lows with the strict minimum on low; in particular on a too-short
series both lists are empty, and no index in [0, left_bars) or
[len-right_bars, len) ever appears in either list. -/
theorem find_pivots_characterization (df : List Row) (lb rb i : ℕ) :
    (i ∈ (find_pivots df lb rb).pivot_highs.map Pivot.index ↔
      lb + rb + 1 ≤ df.length ∧ lb ≤ i ∧ i + rb + 1 ≤ df.length ∧
      (∀ j, i - lb ≤ j → j < i → highAt df j < highAt df i) ∧
      (∀ j, i + 1 ≤ j → j ≤ i + rb → highAt df j < highAt df i)) ∧
    (i ∈ (find_pivots df lb rb).pivot_lows.map Pivot.index ↔
      lb + rb + 1 ≤ df.length ∧ lb ≤ i ∧ i + rb + 1 ≤ df.length ∧
      (∀ j, i - lb ≤ j → j < i → lowAt df i < lowAt df j) ∧
      (∀ j, i + 1 ≤ j → j ≤ i + rb → lowAt df i < lowAt df j)) ∧
    (i < lb ∨ df.length ≤ i + rb →
      i ∉ (find_pivots df lb rb).pivot_highs.map Pivot.index ∧
      i ∉ (find_pivots df lb rb).pivot_lows.map Pivot.index) := by
  have hhigh : i ∈ (find_pivots df lb rb).pivot_highs.map Pivot.index ↔
      lb + rb + 1 ≤ df.length ∧ lb ≤ i ∧ i + rb + 1 ≤ df.length ∧
      (∀ j, i - lb ≤ j → j < i → highAt df j < highAt df i) ∧
      (∀ j, i + 1 ≤ j → j ≤ i + rb → highAt df j < highAt df i) := by
    unfold find_pivots
    by_cases hlen : df.length < lb + rb + 1
    · rw [if_pos hlen]
      simp only [List.map_nil, List.not_mem_nil, false_iff, not_and]
      intro h
      omega
    · rw [if_neg hlen]
      dsimp only
      rw [List.map_map, show Pivot.index ∘ mk_pivot_high df = id from funext fun a => rfl,
        List.map_id, List.mem_filter]
      constructor
      · rintro ⟨ha1, ha2⟩
        have hmem := List.mem_range'_1.mp ha1
        have hi : lb ≤ i := hmem.1
        have hub := hmem.2
        refine ⟨by omega, hi, by omega, ((is_pivot_high_iff df lb rb i hi).mp ha2).1,
          ((is_pivot_high_iff df lb rb i hi).mp ha2).2⟩
      · rintro ⟨h1, h2, h3, h4, h5⟩
        exact ⟨List.mem_range'_1.mpr ⟨h2, by omega⟩,
          (is_pivot_high_iff df lb rb i h2).mpr ⟨h4, h5⟩⟩
  have hlow : i ∈ (find_pivots df lb rb).pivot_lows.map Pivot.index ↔
      lb + rb + 1 ≤ df.length ∧ lb ≤ i ∧ i + rb + 1 ≤ df.length ∧
      (∀ j, i - lb ≤ j → j < i → lowAt df i < lowAt df j) ∧
      (∀ j, i + 1 ≤ j → j ≤ i + rb → lowAt df i < lowAt df j) := by
    unfold find_pivots
    by_cases hlen : df.length < lb + rb + 1
    · rw [if_pos hlen]
      simp only [List.map_nil, List.not_mem_nil, false_iff, not_and]
      intro h
      omega
    · rw [if_neg hlen]
      dsimp only
      rw [List.map_map, show Pivot.index ∘ mk_pivot_low df = id from funext fun a => rfl,
        List.map_id, List.mem_filter]
      constructor
      · rintro ⟨ha1, ha2⟩
        have hmem := List.mem_range'_1.mp ha1
        have hi : lb ≤ i := hmem.1
        have hub := hmem.2
        refine ⟨by omega, hi, by omega, ((is_pivot_low_iff df lb rb i hi).mp ha2).1,
          ((is_pivot_low_iff df lb rb i hi).mp ha2).2⟩
      · rintro ⟨h1, h2, h3, h4, h5⟩
        exact ⟨List.mem_range'_1.mpr ⟨h2, by omega⟩,
          (is_pivot_low_iff df lb rb i h2).mpr ⟨h4, h5⟩⟩
  refine ⟨hhigh, hlow, fun hb => ⟨fun hc => ?_, fun hc => ?_⟩⟩
  · have := hhigh.mp hc
    omega
  · have := hlow.mp hc
    omega

/-- The three-bar example series used by the find_pivots witness. -/
def dfC1 : List Row := [⟨1, 5, 0, 0, 0⟩, ⟨3, 2, 0, 0, 1⟩, ⟨2, 4, 0, 0, 2⟩]

/-- C1 witness: on the three-bar series with highs 1,3,2 and lows 5,2,4 and
one-bar windows, index 1 is reported as a pivot high, index 1 is reported as
a pivot low, and index 0 appears in neither list. -/
theorem find_pivots_characterization_witness :
    1 ∈ (find_pivots dfC1 1 1).pivot_highs.map Pivot.index ∧
    1 ∈ (find_pivots dfC1 1 1).pivot_lows.map Pivot.index ∧
    0 ∉ (find_pivots dfC1 1 1).pivot_highs.map Pivot.index := by
  refine ⟨(find_pivots_characterization dfC1 1 1 1).1.mpr
      ⟨by norm_num [dfC1], by norm_num, by norm_num [dfC1], ?_, ?_⟩,
    (find_pivots_characterization dfC1 1 1 1).2.1.mpr
      ⟨by norm_num [dfC1], by norm_num, by norm_num [dfC1], ?_, ?_⟩,
    ((find_pivots_characterization dfC1 1 1 0).2.2 (Or.inl (by norm_num))).1⟩
  all_goals
    intro j hj1 hj2
    first
      | (have hj : j = 0 := by omega
         subst hj
         norm_num [highAt, lowAt, dfC1, defaultRow])
      | (have hj : j = 2 := by omega
         subst hj
         norm_num [highAt, lowAt, dfC1, defaultRow])

end SupportResistance

namespace SupportResistance

/-- Helper: a take of an insertion sort is pairwise ordered. -/
theorem pairwise_take_insertionSort (r : Zone → Zone → Prop) [DecidableRel r]
    (htot : ∀ a b, r a b ∨ r b a) (htrans : ∀ a b c, r a b → r b c → r a c)
    (l : List Zone) (n : ℕ) : ((List.insertionSort r l).take n).Pairwise r := by
  haveI : IsTotal Zone r := ⟨htot⟩
  haveI : IsTrans Zone r := ⟨fun a b c => htrans a b c⟩
  exact List.Pairwise.sublist (List.take_sublist n _) (List.sorted_insertionSort r l)

/-- Helper: membership in a take of a sorted filter comes from the filter. -/
theorem mem_of_mem_take_insertionSort (r : Zone → Zone → Prop) [DecidableRel r]
    (p : Zone → Bool) (l : List Zone) (n : ℕ) (z : Zone)
    (hz : z ∈ (List.insertionSort r (l.filter p)).take n) : z ∈ l ∧ p z = true :=
  List.mem_filter.mp ((List.perm_insertionSort r (l.filter p)).mem_iff.mp
    (List.take_subset n _ hz))

/-- Helper: steps 3-4 enforce side separation, distance ordering and the
top-5 truncation. -/
theorem enrich_and_select_spec (cp : ℚ) (r1 s1 : List Zone) :
    (∀ z ∈ (enrich_and_select cp r1 s1).resistance_zones, cp < z.middle) ∧
    (∀ z ∈ (enrich_and_select cp r1 s1).support_zones, z.middle < cp) ∧
    ((enrich_and_select cp r1 s1).resistance_zones.Pairwise
      fun a b => distance_key a ≤ distance_key b) ∧
    ((enrich_and_select cp r1 s1).support_zones.Pairwise
      fun a b => distance_key b ≤ distance_key a) ∧
    (enrich_and_select cp r1 s1).resistance_zones.length ≤ 5 ∧
    (enrich_and_select cp r1 s1).support_zones.length ≤ 5 := by
  unfold enrich_and_select
  dsimp only
  refine ⟨?_, ?_, ?_, ?_, ?_, ?_⟩
  · intro z hz
    exact of_decide_eq_true (mem_of_mem_take_insertionSort
      (fun a b => distance_key a ≤ distance_key b) _ _ 5 z hz).2
  · intro z hz
    exact of_decide_eq_true (mem_of_mem_take_insertionSort
      (fun a b => distance_key b ≤ distance_key a) _ _ 5 z hz).2
  · exact pairwise_take_insertionSort (fun a b => distance_key a ≤ distance_key b)
      (fun a b => le_total _ _) (fun a b c => le_trans) _ 5
  · exact pairwise_take_insertionSort (fun a b => distance_key b ≤ distance_key a)
      (fun a b => le_total _ _) (fun a b c h1 h2 => le_trans h2 h1) _ 5
  · exact List.length_take_le 5 _
  · exact List.length_take_le 5 _

/-- Helper: the wrapper is the error-condition case split. -/
theorem create_pivot_zones_eq (pivots : Pivots) (cp : ℚ) (df : Option (List Row))
    (tol : ℚ) (mt : ℕ) (itl : Bool) :
    create_pivot_zones pivots cp df tol mt itl =
      if zones_error_condition cp (pivot_side_zones pivots cp df tol mt itl).1
          (pivot_side_zones pivots cp df tol mt itl).2 then empty_zones_result
      else enrich_and_select cp (pivot_side_zones pivots cp df tol mt itl).1
        (pivot_side_zones pivots cp df tol mt itl).2 := by
  unfold create_pivot_zones create_pivot_zones_exc
  by_cases h : zones_error_condition cp (pivot_side_zones pivots cp df tol mt itl).1
      (pivot_side_zones pivots cp df tol mt itl).2
  · rw [if_pos h, if_pos h]
  · rw [if_neg h, if_neg h]

/-- C5: in every create_pivot_zones result, each resistance zone has middle
above the current price and each support zone below it; the resistance list
is ordered by ascending distance_pct and the support list by descending
distance_pct; and each of the two lists has at most 5 zones. -/
theorem create_pivot_zones_filter_sort (pivots : Pivots) (cp : ℚ)
    (df : Option (List Row)) (tol : ℚ) (mt : ℕ) (itl : Bool) :
    (∀ z ∈ (create_pivot_zones pivots cp df tol mt itl).resistance_zones, cp < z.middle) ∧
    (∀ z ∈ (create_pivot_zones pivots cp df tol mt itl).support_zones, z.middle < cp) ∧
    ((create_pivot_zones pivots cp df tol mt itl).resistance_zones.Pairwise
      fun a b => distance_key a ≤ distance_key b) ∧
    ((create_pivot_zones pivots cp df tol mt itl).support_zones.Pairwise
      fun a b => distance_key b ≤ distance_key a) ∧
    (create_pivot_zones pivots cp df tol mt itl).resistance_zones.length ≤ 5 ∧
    (create_pivot_zones pivots cp df tol mt itl).support_zones.length ≤ 5 := by
  rw [create_pivot_zones_eq]
  by_cases h : zones_error_condition cp (pivot_side_zones pivots cp df tol mt itl).1
      (pivot_side_zones pivots cp df tol mt itl).2
  · rw [if_pos h]
    exact ⟨fun z hz => absurd hz (List.not_mem_nil z), fun z hz => absurd hz (List.not_mem_nil z),
      List.Pairwise.nil, List.Pairwise.nil, by norm_num [empty_zones_result],
      by norm_num [empty_zones_result]⟩
  · rw [if_neg h]
    exact enrich_and_select_spec cp _ _

/-- C5 witness: two pivot highs at 10 and 10.1 with current price 5 produce a
single resistance zone whose middle 10.05 is above the current price. -/
theorem create_pivot_zones_filter_sort_witness :
    (5:ℚ) < (201/20 : ℚ) ∧ (1:ℕ) ≤ 5 := by
  have heval : (create_pivot_zones ⟨[⟨0, 10, 0, 0⟩, ⟨1, 101/10, 1, 0⟩], []⟩ 5 none
      (3/2) 2 true).resistance_zones =
      [⟨[⟨1, 101/10, 1, 0⟩, ⟨0, 10, 0, 0⟩], 101/10, 10, 201/20, 0, 2, 1,
        some (1/2), some 101, some (200/201)⟩] := by
    norm_num [create_pivot_zones, create_pivot_zones_exc, pivot_side_zones,
      group_pivots_into_zones, sort_pivots_by_price, List.insertionSort, List.orderedInsert,
      group_zone_loop, single_pivot_zone, add_pivot_to_zone, zones_error_condition,
      enrich_and_select, enrich_zone, calculate_zone_strength, distance_key, abs]
  constructor
  · have h := (create_pivot_zones_filter_sort ⟨[⟨0, 10, 0, 0⟩, ⟨1, 101/10, 1, 0⟩], []⟩ 5 none
      (3/2) 2 true).1 ⟨[⟨1, 101/10, 1, 0⟩, ⟨0, 10, 0, 0⟩], 101/10, 10, 201/20, 0, 2, 1,
        some (1/2), some 101, some (200/201)⟩
    simpa using h (by rw [heval]; exact List.mem_singleton.mpr rfl)
  · have h := (create_pivot_zones_filter_sort ⟨[⟨0, 10, 0, 0⟩, ⟨1, 101/10, 1, 0⟩], []⟩ 5 none
      (3/2) 2 true).2.2.2.2.1
    rw [heval] at h
    simpa using h

/-- C7: whenever the body of create_pivot_zones raises (the Except core
returns an error), the caller still receives the well-formed result with the
three keys and empty zone lists. -/
theorem create_pivot_zones_swallows_errors (pivots : Pivots) (cp : ℚ)
    (df : Option (List Row)) (tol : ℚ) (mt : ℕ) (itl : Bool) (e : Unit)
    (h : create_pivot_zones_exc pivots cp df tol mt itl = Except.error e) :
    create_pivot_zones pivots cp df tol mt itl = empty_zones_result := by
  unfold create_pivot_zones
  rw [h]

/-- C7 witness: two pivot highs at price 10 with current price 0 make the
distance_pct division raise; the core errors and the wrapper returns the
empty result structure. -/
theorem create_pivot_zones_swallows_errors_witness :
    create_pivot_zones_exc ⟨[⟨0, 10, 0, 0⟩, ⟨1, 10, 1, 0⟩], []⟩ 0 none (3/2) 2 false =
      Except.error () ∧
    create_pivot_zones ⟨[⟨0, 10, 0, 0⟩, ⟨1, 10, 1, 0⟩], []⟩ 0 none (3/2) 2 false =
      empty_zones_result := by
  have h : create_pivot_zones_exc ⟨[⟨0, 10, 0, 0⟩, ⟨1, 10, 1, 0⟩], []⟩ 0 none (3/2) 2 false =
      Except.error () := by
    norm_num [create_pivot_zones_exc, pivot_side_zones, group_pivots_into_zones,
      sort_pivots_by_price, List.insertionSort, List.orderedInsert, group_zone_loop,
      single_pivot_zone, add_pivot_to_zone, zones_error_condition, abs]
  exact ⟨h, create_pivot_zones_swallows_errors _ 0 none (3/2) 2 false () h⟩

end SupportResistance

namespace SupportResistance

/-- Every contributing touch in the zone's provenance list lies within the
zone's bounds. -/
def zone_contains_touches (z : Zone) : Prop :=
  ∀ t ∈ z.pivots, z.lower ≤ t.price ∧ t.price ≤ z.upper

theorem contains_single (p : Pivot) : zone_contains_touches (single_pivot_zone p) := by
  intro t ht
  rw [single_pivot_zone] at ht ⊢
  rw [List.mem_singleton.mp ht]
  exact ⟨le_refl _, le_refl _⟩

theorem contains_add (z : Zone) (p : Pivot) (h : zone_contains_touches z) :
    zone_contains_touches (add_pivot_to_zone z p) := by
  intro t ht
  rw [add_pivot_to_zone] at ht ⊢
  rcases List.mem_append.mp ht with hm | hm
  · exact ⟨le_trans (min_le_left _ _) (h t hm).1, le_trans (h t hm).2 (le_max_left _ _)⟩
  · rw [List.mem_singleton.mp hm]
    exact ⟨min_le_right _ _, le_max_right _ _⟩

theorem contains_loop (tol : ℚ) (mt : ℕ) :
    ∀ (rest : List Pivot) (cur : Zone), zone_contains_touches cur →
      ∀ z ∈ group_zone_loop tol mt rest cur, zone_contains_touches z := by
  intro rest
  induction rest with
  | nil =>
    intro cur hcur z hz
    rw [group_zone_loop] at hz
    split at hz
    · rw [List.mem_singleton.mp hz]; exact hcur
    · cases hz
  | cons p ps ih =>
    intro cur hcur z hz
    rw [group_zone_loop] at hz
    split at hz
    · exact ih _ (contains_add cur p hcur) z hz
    · rcases List.mem_append.mp hz with h | h
      · split at h
        · rw [List.mem_singleton.mp h]; exact hcur
        · cases h
      · exact ih _ (contains_single p) z h

theorem contains_group (pivots : List Pivot) (cp tol : ℚ) (mt : ℕ) (b : Bool) :
    ∀ z ∈ group_pivots_into_zones pivots cp tol mt b, zone_contains_touches z := by
  intro z hz
  rw [group_pivots_into_zones] at hz
  rcases hsort : sort_pivots_by_price b pivots with _ | ⟨p, rest⟩ <;> rw [hsort] at hz
  · cases hz
  · exact contains_loop tol mt rest (single_pivot_zone p) (contains_single p) z hz

theorem contains_touching (df : List Row) (uh : Bool) (tol : ℚ) (mt : ℕ) :
    ∀ z ∈ find_touching_levels df uh tol mt, zone_contains_touches z := by
  intro z hz
  rw [find_touching_levels] at hz
  rcases hsort : sort_pivots_by_price uh (touch_records df uh) with _ | ⟨t, rest⟩ <;>
    rw [hsort] at hz
  · cases hz
  · exact contains_loop tol mt rest (single_pivot_zone t) (contains_single t) z hz

theorem contains_merge (e z : Zone) (he : zone_contains_touches e)
    (hz : zone_contains_touches z) : zone_contains_touches (merge_zone_bounds e z) := by
  intro t ht
  rw [merge_zone_bounds] at ht ⊢
  rcases List.mem_append.mp ht with hm | hm
  · exact ⟨le_trans (min_le_left _ _) (he t hm).1, le_trans (he t hm).2 (le_max_left _ _)⟩
  · exact ⟨le_trans (min_le_right _ _) (hz t hm).1, le_trans (hz t hm).2 (le_max_right _ _)⟩

theorem contains_absorb (L : List Zone) (z : Zone) (hL : ∀ e ∈ L, zone_contains_touches e)
    (hz : zone_contains_touches z) :
    ∀ x ∈ absorb_touching_zone L z, zone_contains_touches x := by
  induction L with
  | nil =>
    intro x hx
    rw [absorb_touching_zone] at hx
    rw [List.mem_singleton.mp hx]
    exact hz
  | cons e rest ih =>
    intro x hx
    rw [absorb_touching_zone] at hx
    split at hx
    · rcases List.mem_cons.mp hx with hm | hm
      · subst hm
        split
        · exact contains_merge e z (hL e (List.mem_cons_self e rest)) hz
        · exact hL e (List.mem_cons_self e rest)
      · exact hL x (List.mem_cons_of_mem e hm)
    · rcases List.mem_cons.mp hx with hm | hm
      · subst hm
        exact hL x (List.mem_cons_self x rest)
      · exact ih (fun y hy => hL y (List.mem_cons_of_mem e hy)) x hm

theorem contains_foldl (T : List Zone) (L : List Zone)
    (hL : ∀ e ∈ L, zone_contains_touches e) (hT : ∀ z ∈ T, zone_contains_touches z) :
    ∀ x ∈ List.foldl absorb_touching_zone L T, zone_contains_touches x := by
  induction T generalizing L with
  | nil => exact fun x hx => hL x hx
  | cons z T' ih =>
    intro x hx
    rw [List.foldl_cons] at hx
    exact ih (absorb_touching_zone L z)
      (contains_absorb L z hL (hT z (List.mem_cons_self z T')))
      (fun y hy => hT y (List.mem_cons_of_mem z hy)) x hx

theorem contains_sides (pivots : Pivots) (cp : ℚ) (df : Option (List Row)) (tol : ℚ)
    (mt : ℕ) (itl : Bool) :
    (∀ z ∈ (pivot_side_zones pivots cp df tol mt itl).1, zone_contains_touches z) ∧
    (∀ z ∈ (pivot_side_zones pivots cp df tol mt itl).2, zone_contains_touches z) := by
  unfold pivot_side_zones
  dsimp only
  split
  · constructor
    · exact contains_foldl _ _ (contains_group _ cp tol mt true) (contains_touching _ true tol _)
    · exact contains_foldl _ _ (contains_group _ cp tol mt false)
        (contains_touching _ false tol _)
  · exact ⟨contains_group _ cp tol mt true, contains_group _ cp tol mt false⟩

theorem contains_enrich (cp : ℚ) (z : Zone) (h : zone_contains_touches z) :
    zone_contains_touches (enrich_zone cp z) := by
  intro t ht
  rw [enrich_zone] at ht ⊢
  exact h t ht

/-- C9: zone containment invariant — for every zone produced by the greedy
pivot grouping, by the touching-level grouping, or present in any of the
three lists of a create_pivot_zones result (after the overlap merge of
touching zones into pivot zones), every touch in the zone's provenance list
has its price within [lower, upper]. -/
theorem zone_touch_containment :
    (∀ (pivots : List Pivot) (cp tol : ℚ) (mt : ℕ) (b : Bool),
      ∀ z ∈ group_pivots_into_zones pivots cp tol mt b, zone_contains_touches z) ∧
    (∀ (df : List Row) (uh : Bool) (tol : ℚ) (mt : ℕ),
      ∀ z ∈ find_touching_levels df uh tol mt, zone_contains_touches z) ∧
    (∀ (pivots : Pivots) (cp : ℚ) (df : Option (List Row)) (tol : ℚ) (mt : ℕ) (itl : Bool),
      ∀ z ∈ (create_pivot_zones pivots cp df tol mt itl).resistance_zones ++
          (create_pivot_zones pivots cp df tol mt itl).support_zones ++
          (create_pivot_zones pivots cp df tol mt itl).all_zones,
        zone_contains_touches z) := by
  refine ⟨contains_group, contains_touching, ?_⟩
  intro pivots cp df tol mt itl z hz
  have hsides := contains_sides pivots cp df tol mt itl
  have henr : ∀ x ∈ (pivot_side_zones pivots cp df tol mt itl).1.map (enrich_zone cp) ++
      (pivot_side_zones pivots cp df tol mt itl).2.map (enrich_zone cp),
      zone_contains_touches x := by
    intro x hx
    rcases List.mem_append.mp hx with hm | hm <;> obtain ⟨y, hy, rfl⟩ := List.mem_map.mp hm
    · exact contains_enrich cp y (hsides.1 y hy)
    · exact contains_enrich cp y (hsides.2 y hy)
  rw [create_pivot_zones_eq] at hz
  by_cases h : zones_error_condition cp (pivot_side_zones pivots cp df tol mt itl).1
      (pivot_side_zones pivots cp df tol mt itl).2
  · rw [if_pos h] at hz
    simp [empty_zones_result] at hz
  · rw [if_neg h] at hz
    rcases List.mem_append.mp hz with hm | hm
    · rcases List.mem_append.mp hm with hm2 | hm2
      · unfold enrich_and_select at hm2
        dsimp only at hm2
        have := (mem_of_mem_take_insertionSort
          (fun a b => distance_key a ≤ distance_key b) _ _ 5 z hm2).1
        exact henr z (List.mem_append.mpr (Or.inl this))
      · unfold enrich_and_select at hm2
        dsimp only at hm2
        have := (mem_of_mem_take_insertionSort
          (fun a b => distance_key b ≤ distance_key a) _ _ 5 z hm2).1
        exact henr z (List.mem_append.mpr (Or.inr this))
    · unfold enrich_and_select at hm
      dsimp only at hm
      exact henr z hm

/-- C9 witness: in the zone emitted for the three skewed pivots of pivotsC2,
the first contributing touch price 10.1 lies within the bounds [10, 10.1]. -/
theorem zone_touch_containment_witness :
    (10:ℚ) ≤ 101/10 ∧ (101/10:ℚ) ≤ 101/10 := by
  have h := zone_touch_containment.1 pivotsC2 5 (3/2) 2 true zoneC2
    (group_pivots_example_eval ▸ List.mem_singleton.mpr rfl)
    (⟨0, 101/10, 0, 0⟩ : Pivot) (by rw [zoneC2, pivotsC2]; exact List.mem_cons_self _ _)
  simpa [zoneC2] using h

end SupportResistance

namespace SupportResistance

theorem pos_of_mem_volume_avgs (a20 a50 a200 v : ℚ) (h : v ∈ volume_avgs a20 a50 a200) :
    0 < v := by
  rw [volume_avgs] at h
  exact of_decide_eq_true (List.mem_filter.mp h).2

/-- Helper: the volume sub-score always lies in [0,1]. -/
theorem volume_strength_bounds (cv a20 a50 a200 : ℚ) :
    0 ≤ calculate_volume_strength cv a20 a50 a200 ∧
      calculate_volume_strength cv a20 a50 a200 ≤ 1 := by
  unfold calculate_volume_strength
  by_cases h : volume_avgs a20 a50 a200 = [] ∨ cv ≤ 0
  · rw [if_pos h]
    norm_num
  · rw [if_neg h]
    push_neg at h
    obtain ⟨h1, h2⟩ := h
    dsimp only
    have hbase0 : (0:ℚ) ≤ volume_base_score cv a20 a50 a200 := by
      unfold volume_base_score
      refine le_min ?_ (by norm_num)
      refine div_nonneg (div_nonneg ?_ (Nat.cast_nonneg _)) (by norm_num)
      refine List.sum_nonneg ?_
      intro x hx
      obtain ⟨r, hr, rfl⟩ := List.mem_map.mp hx
      rw [volume_ratios] at hr
      obtain ⟨v, hv, rfl⟩ := List.mem_map.mp hr
      exact le_min (div_nonneg h2.le (pos_of_mem_volume_avgs a20 a50 a200 v hv).le)
        (by norm_num)
    have hbonus0 : (0:ℝ) ≤ if 1 < volume_bonus_ratio cv a20 a50 a200 then
        min (0.1 * Real.logb 1.5 ((volume_bonus_ratio cv a20 a50 a200 : ℚ) : ℝ)) 0.2
      else 0 := by
      split_ifs with hr
      · refine le_min (mul_nonneg (by norm_num) ?_) (by norm_num)
        have hcast : (1:ℝ) < ((volume_bonus_ratio cv a20 a50 a200 : ℚ) : ℝ) := by
          exact_mod_cast hr
        exact (Real.logb_pos (by norm_num) hcast).le
      · exact le_refl 0
    constructor
    · refine le_min (add_nonneg ?_ hbonus0) (by norm_num)
      exact_mod_cast hbase0
    · exact min_le_right _ _

/-- Helper: the momentum sub-score always lies in [0,1]. -/
theorem momentum_strength_bounds (rsi macd ms : ℚ) (b : Bool) :
    0 ≤ calculate_momentum_strength rsi macd ms b ∧
      calculate_momentum_strength rsi macd ms b ≤ 1 :=
  ⟨le_min (momentum_raw_nonneg rsi macd ms b) zero_le_one, min_le_right _ _⟩

/-- Helper: the pattern sub-score always lies in [0,1]. -/
theorem breakout_pattern_bounds (c m u l : ℚ) (hs ls : List ℚ) :
    0 ≤ calculate_breakout_pattern c m u l hs ls ∧
      calculate_breakout_pattern c m u l hs ls ≤ 1 := by
  unfold calculate_breakout_pattern
  constructor
  · refine le_min ?_ zero_le_one
    split_ifs <;> norm_num
  · exact min_le_right _ 1

/-- C8: for every non-empty series, any indicator mapping (missing keys
defaulting to neutral values) and any zone whose stored strength, if
present, lies in [0,1], the confidence score and each of the four breakdown
sub-scores lie in [0,1]. -/
theorem breakout_confidence_bounded (zone : Zone) (ind : Indicators) (df : List Row)
    (b : Bool) (hdf : df ≠ [])
    (hs : ∀ s, zone.strength = some s → 0 ≤ s ∧ s ≤ 1) :
    (0 ≤ (calculate_breakout_confidence zone ind df b).confidence_score ∧
      (calculate_breakout_confidence zone ind df b).confidence_score ≤ 1) ∧
    (0 ≤ (calculate_breakout_confidence zone ind df b).volume_strength ∧
      (calculate_breakout_confidence zone ind df b).volume_strength ≤ 1) ∧
    (0 ≤ (calculate_breakout_confidence zone ind df b).zone_strength ∧
      (calculate_breakout_confidence zone ind df b).zone_strength ≤ 1) ∧
    (0 ≤ (calculate_breakout_confidence zone ind df b).momentum_strength ∧
      (calculate_breakout_confidence zone ind df b).momentum_strength ≤ 1) ∧
    (0 ≤ (calculate_breakout_confidence zone ind df b).pattern_strength ∧
      (calculate_breakout_confidence zone ind df b).pattern_strength ≤ 1) := by
  have hzq : 0 ≤ zone.strength.getD (1/2) ∧ zone.strength.getD (1/2) ≤ 1 := by
    cases h : zone.strength with
    | none => norm_num
    | some s => simpa using hs s h
  have hv := volume_strength_bounds (df.getLastD defaultRow).volume
    (list_mean (lastN (min 20 df.length) (df.map Row.volume)))
    (list_mean (lastN (min 50 df.length) (df.map Row.volume)))
    (if 200 ≤ df.length then list_mean (lastN 200 (df.map Row.volume))
      else list_mean (df.map Row.volume))
  have hm := momentum_strength_bounds (ind.rsi_14.getD 50) (ind.macd.getD 0)
    (ind.macd_sig.getD 0) b
  have hp := breakout_pattern_bounds (df.getLastD defaultRow).close zone.middle zone.upper
    zone.lower (lastN 10 (df.map Row.high)) (lastN 10 (df.map Row.low))
  have hzr : (0:ℝ) ≤ ((zone.strength.getD (1/2) : ℚ) : ℝ) ∧
      ((zone.strength.getD (1/2) : ℚ) : ℝ) ≤ 1 :=
    ⟨by exact_mod_cast hzq.1, by exact_mod_cast hzq.2⟩
  have hmr : (0:ℝ) ≤ ((calculate_momentum_strength (ind.rsi_14.getD 50) (ind.macd.getD 0)
      (ind.macd_sig.getD 0) b : ℚ) : ℝ) ∧
      ((calculate_momentum_strength (ind.rsi_14.getD 50) (ind.macd.getD 0)
        (ind.macd_sig.getD 0) b : ℚ) : ℝ) ≤ 1 :=
    ⟨by exact_mod_cast hm.1, by exact_mod_cast hm.2⟩
  have hpr : (0:ℝ) ≤ ((calculate_breakout_pattern (df.getLastD defaultRow).close zone.middle
      zone.upper zone.lower (lastN 10 (df.map Row.high)) (lastN 10 (df.map Row.low)) : ℚ) : ℝ) ∧
      ((calculate_breakout_pattern (df.getLastD defaultRow).close zone.middle
        zone.upper zone.lower (lastN 10 (df.map Row.high)) (lastN 10 (df.map Row.low)) : ℚ) : ℝ)
        ≤ 1 :=
    ⟨by exact_mod_cast hp.1, by exact_mod_cast hp.2⟩
  unfold calculate_breakout_confidence
  dsimp only
  refine ⟨⟨?_, ?_⟩, hv, hzr, hmr, hpr⟩
  · have := hv.1
    have := hzr.1
    have := hmr.1
    have := hpr.1
    linarith
  · have := hv.2
    have := hzr.2
    have := hmr.2
    have := hpr.2
    linarith

/-- C8 witness: the bounds instantiated at a one-row series, an empty
indicator mapping and a zone of strength 1/2. -/
theorem breakout_confidence_bounded_witness :
    (0 ≤ (calculate_breakout_confidence
        ⟨[], 1, 1, 1, 0, 1, 0, some (1/2), none, none⟩ ⟨none, none, none⟩
        [⟨1, 1, 1, 1, 0⟩] true).confidence_score ∧
      (calculate_breakout_confidence
        ⟨[], 1, 1, 1, 0, 1, 0, some (1/2), none, none⟩ ⟨none, none, none⟩
        [⟨1, 1, 1, 1, 0⟩] true).confidence_score ≤ 1) ∧
    (0 ≤ (calculate_breakout_confidence
        ⟨[], 1, 1, 1, 0, 1, 0, some (1/2), none, none⟩ ⟨none, none, none⟩
        [⟨1, 1, 1, 1, 0⟩] true).volume_strength ∧
      (calculate_breakout_confidence
        ⟨[], 1, 1, 1, 0, 1, 0, some (1/2), none, none⟩ ⟨none, none, none⟩
        [⟨1, 1, 1, 1, 0⟩] true).volume_strength ≤ 1) ∧
    (0 ≤ (calculate_breakout_confidence
        ⟨[], 1, 1, 1, 0, 1, 0, some (1/2), none, none⟩ ⟨none, none, none⟩
        [⟨1, 1, 1, 1, 0⟩] true).zone_strength ∧
      (calculate_breakout_confidence
        ⟨[], 1, 1, 1, 0, 1, 0, some (1/2), none, none⟩ ⟨none, none, none⟩
        [⟨1, 1, 1, 1, 0⟩] true).zone_strength ≤ 1) ∧
    (0 ≤ (calculate_breakout_confidence
        ⟨[], 1, 1, 1, 0, 1, 0, some (1/2), none, none⟩ ⟨none, none, none⟩
        [⟨1, 1, 1, 1, 0⟩] true).momentum_strength ∧
      (calculate_breakout_confidence
        ⟨[], 1, 1, 1, 0, 1, 0, some (1/2), none, none⟩ ⟨none, none, none⟩
        [⟨1, 1, 1, 1, 0⟩] true).momentum_strength ≤ 1) ∧
    (0 ≤ (calculate_breakout_confidence
        ⟨[], 1, 1, 1, 0, 1, 0, some (1/2), none, none⟩ ⟨none, none, none⟩
        [⟨1, 1, 1, 1, 0⟩] true).pattern_strength ∧
      (calculate_breakout_confidence
        ⟨[], 1, 1, 1, 0, 1, 0, some (1/2), none, none⟩ ⟨none, none, none⟩
        [⟨1, 1, 1, 1, 0⟩] true).pattern_strength ≤ 1) :=
  breakout_confidence_bounded ⟨[], 1, 1, 1, 0, 1, 0, some (1/2), none, none⟩
    ⟨none, none, none⟩ [⟨1, 1, 1, 1, 0⟩] true (by simp)
    (fun s hsx => by
      have hx : (1:ℚ)/2 = s := by injection hsx
      subst hx
      norm_num)

end SupportResistance
